import Mathlib

/-!
Verification development for the drawing-common stroke capture, eraser
segmentation, gesture classification and lasso selection engine.

Conventions of the shallow embedding:

* JavaScript numbers are modelled as exact rationals (`ℚ`).  The source
  computes Euclidean distances with `Math.sqrt` / `Math.hypot` and then only
  compares them against a threshold; every such comparison is embedded
  square-free (`dist < t` becomes `0 < t ∧ dist² < t²`), which is equivalent
  over the reals — the lemmas `distanceLt_iff_sqrt` and `distanceGt_iff_sqrt`
  below prove that equivalence against `Real.sqrt`.
* The canvas is modelled by its dimensions `(w, h)`; the hooks bail out when
  no canvas is attached, and the model represents an attached canvas by
  passing the dimensions (assumed positive in all scenarios we evaluate).
* React `useState` / `useRef` cells become explicit state records, and every
  callback invocation (`onPathComplete`, `onScratchComplete`, `onPathsChange`)
  becomes a component of the returned value, so "the callback was not
  invoked" is the value `none`.
* Rendering calls on the 2D context mutate only the screen, never the stroke
  buffer or the host path list; they are not modelled.
-/

namespace DrawingCommon

/-- DrawingPoint from `types/index.ts`: an `{x, y}` pair in normalized
coordinates. -/
structure DrawingPoint where
  x : ℚ
  y : ℚ
deriving DecidableEq, Repr

/-- DrawingPath from `types/index.ts`: an ordered point sequence plus stroke
style. -/
structure DrawingPath where
  points : List DrawingPoint
  color : String
  width : ℚ
deriving DecidableEq, Repr

/-- Square-free embedding of `Math.sqrt(dx*dx + dy*dy) < t` (also of
`Math.hypot(dx, dy) < t`): a nonnegative square root is below `t` iff `t` is
positive and the radicand is below `t²`. -/
def distanceLt (dx dy t : ℚ) : Bool :=
  decide (0 < t) && decide (dx ^ 2 + dy ^ 2 < t ^ 2)

/-- Square-free embedding of `Math.sqrt(dx*dx + dy*dy) > t`. -/
def distanceGt (dx dy t : ℚ) : Bool :=
  decide (t < 0) || decide (t ^ 2 < dx ^ 2 + dy ^ 2)

/-!
Gesture classifier (`isScratchPattern`, `useDrawing.ts` lines 33–72).

The source walks `i = 2 .. points.length - 1`, forms the direction vector
`d_i = points[i] - points[i-2]`, skips it when its length is below the noise
floor `0.0001`, and otherwise compares `angle_i = atan2(d_i)` with the
previous kept angle: the signed difference is renormalized into `[-π, π]` by
the two `while` loops and a reversal is counted when its magnitude exceeds
`π/2`.  The embedding keeps the previous *vector* instead of its angle and
counts a reversal when the dot product with the current vector is negative;
for nonzero vectors this is exactly the `|Δangle| > π/2` test of the source
(`cos` of the renormalized difference has the sign of the dot product), as
proved in `angle_reversal_iff_dot_neg` below.  `scratchAux` carries the
window `(p0, p1, tail)` so that the recursion is structural.
-/

/-- Noise floor `0.0001` from `isScratchPattern`; direction vectors shorter
than this are skipped. -/
def scratchNoiseFloor : ℚ := 1 / 10000

/-- Direction-change scan of `isScratchPattern`: `changes` is the reversal
counter, `prevDir` the last kept direction vector, and `p0 :: p1 :: rest` the
remaining window of the point list. -/
def scratchAux : Nat → Option DrawingPoint → DrawingPoint → DrawingPoint →
    List DrawingPoint → Nat
  | changes, _, _, _, [] => changes
  | changes, prevDir, p0, p1, p2 :: rest =>
    let dx := p2.x - p0.x
    let dy := p2.y - p0.y
    if dx ^ 2 + dy ^ 2 < scratchNoiseFloor ^ 2 then
      scratchAux changes prevDir p1 p2 rest
    else
      match prevDir with
      | none => scratchAux changes (some ⟨dx, dy⟩) p1 p2 rest
      | some d =>
        scratchAux (if d.x * dx + d.y * dy < 0 then changes + 1 else changes)
          (some ⟨dx, dy⟩) p1 p2 rest

/-- Number of `> π/2` direction reversals counted by `isScratchPattern` over
a point list. -/
def directionChanges (pts : List DrawingPoint) : Nat :=
  match pts with
  | p0 :: p1 :: rest => scratchAux 0 none p0 p1 rest
  | _ => 0

/-- isScratchPattern from `useDrawing.ts`: paths shorter than 15 points are
never scratches; otherwise the path is a scratch iff at least 4 direction
reversals are counted. -/
def isScratchPattern (path : DrawingPath) : Bool :=
  if path.points.length < 15 then false
  else decide (4 ≤ directionChanges path.points)

/-!
Stroke capture engine (`useDrawing.ts`).

State of the hook: the `isDrawing` flag, the active path buffer
`currentPathRef` and the cached 2D context `ctxRef` (modelled by the flag
`hasCtx`, since only its presence is ever tested).  `stopDrawing` reports the
callback invocations it performs in a `StopResult`; the source (lines
303–330, identically lines 654–694 and 952–980) has the scratch branch
commented out ("TEMPORARY: Disable scratch pattern detection"), so
`onScratchComplete` is never invoked and the buffered path always goes to
`onPathComplete`.
-/

/-- Mutable state of the `useDrawing` hook. -/
structure DrawState where
  isDrawing : Bool
  currentPath : Option DrawingPath
  hasCtx : Bool
deriving DecidableEq, Repr

/-- Callback invocations performed by one `stopDrawing` call: the path passed
to `onPathComplete` and the path passed to `onScratchComplete` (`none` when
the callback is not invoked). -/
structure StopResult where
  completed : Option DrawingPath
  scratch : Option DrawingPath
deriving DecidableEq, Repr

/-- startDrawing: normalizes the raw point by the canvas dimensions, creates
a fresh one-point buffer with the configured color and width, caches the
context and raises the flag. -/
def startDrawing (w h x y : ℚ) (color : String) (penWidth : ℚ) : DrawState :=
  { isDrawing := true
    currentPath := some { points := [⟨x / w, y / h⟩], color := color, width := penWidth }
    hasCtx := true }

/-- Interpolation step count of `draw`: `Math.min(10, Math.floor(dist /
(threshold / 2)))`.  With `dist = √dist2` and a positive threshold this floor
equals `Nat.sqrt ⌊dist2 / (threshold/2)²⌋`, since `⌊√q⌋ = Nat.sqrt ⌊q⌋` for
nonnegative rational `q` — proved as `interpSteps_eq_floor` below. -/
def interpSteps (dist2 t : ℚ) : Nat :=
  min 10 (Nat.sqrt (Int.toNat ⌊dist2 / (t / 2) ^ 2⌋))

/-- Synthetic points `draw` inserts between the last buffered point and the
new sample when their gap exceeds the surface-relative threshold: the points
`lastPoint + (i/steps) · (d)` for `i = 1 .. steps-1`. -/
def drawInterp (lp : DrawingPoint) (nx ny t : ℚ) : List DrawingPoint :=
  let dx := nx - lp.x
  let dy := ny - lp.y
  if distanceGt dx dy t then
    let steps := interpSteps (dx ^ 2 + dy ^ 2) t
    ((List.range steps).drop 1).map
      (fun i => ⟨lp.x + dx * (i : ℚ) / (steps : ℚ), lp.y + dy * (i : ℚ) / (steps : ℚ)⟩)
  else []

/-- draw (single-sample input path): no-op unless capturing with a buffer and
a context; otherwise appends the gap-filling synthetic points followed by the
normalized sample itself. -/
def draw (w h x y : ℚ) (s : DrawState) : DrawState :=
  match s.isDrawing, s.currentPath, s.hasCtx with
  | true, some path, true =>
    let nx := x / w
    let ny := y / h
    let newPoints :=
      (match path.points.getLast? with
       | none => []
       | some lp => drawInterp lp nx ny (5 / min w h)) ++ [⟨nx, ny⟩]
    { s with currentPath := some { path with points := path.points ++ newPoints } }
  | _, _, _ => s

/-- Per-point de-duplication of `drawBatch`: a normalized sample closer than
`minDistance` to the current last buffered point is dropped, otherwise it is
pushed. -/
def dedupeStep (minDistance : ℚ) (buf : List DrawingPoint) (p : DrawingPoint) :
    List DrawingPoint :=
  match buf.getLast? with
  | some lastPt =>
    if distanceLt (p.x - lastPt.x) (p.y - lastPt.y) minDistance then buf else buf ++ [p]
  | none => buf ++ [p]

/-- drawBatch (coalesced high-rate input, `useDrawing.ts` lines 206–301): no
interpolation; each sample is normalized and appended unless it is within
`minDistance = 0.5 / min(w, h)` of the last buffered point. -/
def drawBatch (w h : ℚ) (pts : List (ℚ × ℚ)) (s : DrawState) : DrawState :=
  match s.isDrawing, s.currentPath, s.hasCtx with
  | true, some path, true =>
    if pts.isEmpty then s
    else
      let normalizedPoints := pts.map (fun p => (⟨p.1 / w, p.2 / h⟩ : DrawingPoint))
      let minDistance := (1 / 2 : ℚ) / min w h
      let newPts := normalizedPoints.foldl (dedupeStep minDistance) path.points
      { s with currentPath := some { path with points := newPts } }
  | _, _, _ => s

/-- stopDrawing (`useDrawing.ts` lines 303–330): when capturing with a
nonempty buffer the buffered path is emitted through `onPathComplete` — the
scratch-classification branch is commented out in the source, so the
`onScratchComplete` component is always `none` — and the state is reset. -/
def stopDrawing (s : DrawState) : DrawState × StopResult :=
  match s.isDrawing, s.currentPath with
  | true, some path =>
    (⟨false, none, false⟩, ⟨some path, none⟩)
  | _, _ => (⟨false, none, false⟩, ⟨none, none⟩)

/-- Raw input events a capture sequence may contain between `start` and
`stop`: a single sample routed to `draw` or a coalesced batch routed to
`drawBatch`. -/
inductive CaptureEvent where
  | draw (x y : ℚ)
  | drawBatch (pts : List (ℚ × ℚ))

/-- Apply one capture event to the hook state. -/
def applyEvent (w h : ℚ) (s : DrawState) (e : CaptureEvent) : DrawState :=
  match e with
  | CaptureEvent.draw x y => draw w h x y s
  | CaptureEvent.drawBatch pts => drawBatch w h pts s

/-- Run a list of capture events in arrival order. -/
def runCapture (w h : ℚ) (s : DrawState) (es : List CaptureEvent) : DrawState :=
  es.foldl (applyEvent w h) s

/-!
Eraser segmenter (`useEraser.ts`).

`eraseAtPosition` receives the hit position in surface pixels, denormalizes
every point, collects per-path lists of point indices within the eraser
radius, merges contiguous indices into closed ranges, splits each hit path
into the complementary sub-ranges keeping only pieces with at least two
points, splices the pieces in place of the original (processing hit paths
from the back so earlier indices stay valid), filters paths with fewer than
2 points from the final list, and only then notifies the host.  When nothing
is hit (or the call is skipped by the 1-pixel same-position guard) the
`onPathsChange` callback is not invoked, which the model renders as `none`.
-/

/-- Distance test of the eraser: the denormalized point is strictly within
`radius` pixels of the hit position. -/
def eraserHit (w h x y r : ℚ) (p : DrawingPoint) : Bool :=
  distanceLt (p.x * w - x) (p.y * h - y) r

/-- Indices of the points of one path that are within the eraser radius, in
ascending order (the source pushes `j` in loop order). -/
def hitIndices (w h x y r : ℚ) (pts : List DrawingPoint) : List Nat :=
  (pts.enum.filter (fun ip => eraserHit w h x y r ip.2)).map Prod.fst

/-- Merge of contiguous hit indices into closed ranges, carrying the open
range `[rangeStart, rangeEnd]` exactly as the source loop does. -/
def buildRanges : List Nat → Nat → Nat → List (Nat × Nat)
  | [], rangeStart, rangeEnd => [(rangeStart, rangeEnd)]
  | j :: rest, rangeStart, rangeEnd =>
    if j = rangeEnd + 1 then buildRanges rest rangeStart j
    else (rangeStart, rangeEnd) :: buildRanges rest j j

/-- Closed contiguous ranges of a hit-index list (the source only ever calls
this with a nonempty list; the empty case is vacuous). -/
def rangesOf : List Nat → List (Nat × Nat)
  | [] => []
  | j :: rest => buildRanges rest j j

/-- Complementary-range splitter: walks the erased ranges keeping the pieces
between them (`slice(lastEnd, start)`) and after the final one
(`slice(lastEnd)`), each only when it has at least 2 points. -/
def segmentsLoop (path : DrawingPath) : List (Nat × Nat) → Nat → List DrawingPath
  | [], lastEnd =>
    let tailPts := path.points.drop lastEnd
    if lastEnd < path.points.length ∧ 2 ≤ tailPts.length then
      [{ points := tailPts, color := path.color, width := path.width }]
    else []
  | (start, stop) :: rest, lastEnd =>
    let segPts := (path.points.drop lastEnd).take (start - lastEnd)
    (if lastEnd < start ∧ 2 ≤ segPts.length then
      [{ points := segPts, color := path.color, width := path.width }]
    else []) ++ segmentsLoop path rest (stop + 1)

/-- Surviving sub-paths of one hit path given its hit indices. -/
def splitPath (path : DrawingPath) (idxs : List Nat) : List DrawingPath :=
  segmentsLoop path (rangesOf idxs) 0

/-- Loop of the source collecting `pathsToModify`: pairs of path index and
nonempty hit-index list, in ascending path order. -/
def buildModsAux (w h x y r : ℚ) : Nat → List DrawingPath → List (Nat × List Nat)
  | _, [] => []
  | i, p :: rest =>
    let idxs := hitIndices w h x y r p.points
    (if idxs.isEmpty then [] else [(i, idxs)]) ++ buildModsAux w h x y r (i + 1) rest

/-- pathsToModify for a whole path list. -/
def buildMods (w h x y r : ℚ) (paths : List DrawingPath) : List (Nat × List Nat) :=
  buildModsAux w h x y r 0 paths

/-- One `newPaths.splice(pathIndex, 1, ...segments)` step, including the
`if (!path) continue` guard of the source. -/
def applyMod (acc : List DrawingPath) (m : Nat × List Nat) : List DrawingPath :=
  match acc.get? m.1 with
  | none => acc
  | some path => acc.take m.1 ++ splitPath path m.2 ++ acc.drop (m.1 + 1)

/-- Body of `eraseAtPosition` after the same-position guard: `none` when no
path is hit (the host callback is not invoked), otherwise the spliced and
degenerate-filtered replacement list handed to `onPathsChange`.  The hit
paths are processed back to front (`mods.reverse`), as in the source. -/
def eraseCore (w h r x y : ℚ) (paths : List DrawingPath) : Option (List DrawingPath) :=
  let mods := buildMods w h x y r paths
  if mods.isEmpty then none
  else some ((mods.reverse.foldl applyMod paths).filter (fun p => 2 ≤ p.points.length))

/-- eraseAtPosition including the 1-pixel same-position performance guard:
returns the updated `lastErasePos` cell and the optional `onPathsChange`
invocation. -/
def eraseAtPosition (w h r x y : ℚ) (lastPos : Option (ℚ × ℚ))
    (paths : List DrawingPath) : Option (ℚ × ℚ) × Option (List DrawingPath) :=
  match lastPos with
  | some lp =>
    if |lp.1 - x| < 1 ∧ |lp.2 - y| < 1 then (lastPos, none)
    else ((x, y), eraseCore w h r x y paths)
  | none => ((x, y), eraseCore w h r x y paths)

/-!
Lasso selector (`useLassoSelection.ts`).

The hook state combines the `SelectionState` record with the
`originalPathsRef` snapshot cell.  `checkForLasso` is invoked with a freshly
finalized path: it rejects short or unclosed paths and loops that select
nothing, and otherwise records the selection, its bounding box and a deep
copy of the current host path list.  `drag` recomputes every selected path
from that snapshot plus the delta from `dragStart` and hands the rebuilt
list to `onPathsChange` (modelled as the returned `Option`); it performs no
state mutation at all.
-/

/-- Axis-aligned bounding box in normalized coordinates. -/
structure BoundingBox where
  minX : ℚ
  minY : ℚ
  maxX : ℚ
  maxY : ℚ
deriving DecidableEq, Repr

/-- State of the `useLassoSelection` hook: the `SelectionState` record plus
the `originalPathsRef` snapshot. -/
structure LassoState where
  lassoPath : Option DrawingPath
  selectedIndices : List Nat
  boundingBox : Option BoundingBox
  isDragging : Bool
  dragStart : Option DrawingPoint
  originalPaths : List DrawingPath
deriving DecidableEq, Repr

/-- One iteration of the ray-casting loop of `isPointInPolygon`: `pr` is the
pair (vertex `i`, vertex `j`), where `j` is the predecessor of `i` (wrapping
to the last vertex for `i = 0`).  The parity flips when the edge straddles
the horizontal through the point and the point is left of the edge at that
height. -/
def rayStep (point : DrawingPoint) (inside : Bool)
    (pr : DrawingPoint × DrawingPoint) : Bool :=
  let pI := pr.1
  let pJ := pr.2
  if (decide (point.y < pI.y) != decide (point.y < pJ.y)) &&
      decide (point.x < (pJ.x - pI.x) * (point.y - pI.y) / (pJ.y - pI.y) + pI.x) then
    !inside
  else inside

/-- isPointInPolygon (ray casting): folds `rayStep` over the vertex pairs
`(polygon[i], polygon[i-1 mod n])` in loop order; an empty polygon yields
`false` as in the source. -/
def isPointInPolygon (point : DrawingPoint) (polygon : List DrawingPoint) : Bool :=
  (polygon.zip (polygon.getLastD ⟨0, 0⟩ :: polygon)).foldl (rayStep point) false

/-- isClosedLoop: at least 10 points and first-to-last distance strictly
below the closure threshold. -/
def isClosedLoop (path : DrawingPath) (threshold : ℚ) : Bool :=
  if path.points.length < 10 then false
  else
    let first := path.points.headD ⟨0, 0⟩
    let lastPt := path.points.getLastD ⟨0, 0⟩
    distanceLt (lastPt.x - first.x) (lastPt.y - first.y) threshold

/-- isPathInsideLasso: the fraction of the points of `path` inside the loop
polygon reaches the selection ratio (`insideCount / length ≥ ratio`); an
empty path is never selected. -/
def isPathInsideLasso (path : DrawingPath) (lassoPoints : List DrawingPoint)
    (ratio : ℚ) : Bool :=
  if path.points.length = 0 then false
  else
    let insideCount := (path.points.filter (fun p => isPointInPolygon p lassoPoints)).length
    decide (ratio ≤ (insideCount : ℚ) / (path.points.length : ℚ))

/-- Indices of the host paths selected by the loop, in ascending order. -/
def selectedIndicesFor (paths : List DrawingPath) (lassoPoints : List DrawingPoint)
    (ratio : ℚ) : List Nat :=
  (paths.enum.filter (fun ip => isPathInsideLasso ip.2 lassoPoints ratio)).map Prod.fst

/-- calculateBoundingBox: min/max fold over all points of the indexed paths,
skipping missing indices; `none` models the `Infinity`-sentinel case of no
points at all. -/
def calculateBoundingBox (paths : List DrawingPath) (indices : List Nat) :
    Option BoundingBox :=
  let pts := ((indices.filterMap (fun idx => paths.get? idx)).map
    (fun p => p.points)).flatten
  match pts with
  | [] => none
  | p :: rest =>
    some (rest.foldl
      (fun bb q => ⟨min bb.minX q.x, min bb.minY q.y, max bb.maxX q.x, max bb.maxY q.y⟩)
      ⟨p.x, p.y, p.x, p.y⟩)

/-- checkForLasso (`useLassoSelection.ts` lines 110–144): returns whether the
finalized path was consumed as a lasso, together with the new hook state.
Unclosed/short loops and loops selecting nothing leave the state untouched;
otherwise the selection activates with a snapshot of the current paths. -/
def checkForLasso (paths : List DrawingPath) (closeThreshold ratio : ℚ)
    (path : DrawingPath) (s : LassoState) : Bool × LassoState :=
  if isClosedLoop path closeThreshold = false then (false, s)
  else
    let sel := selectedIndicesFor paths path.points ratio
    if sel.isEmpty then (false, s)
    else
      (true,
        { lassoPath := some path
          selectedIndices := sel
          boundingBox := calculateBoundingBox paths sel
          isDragging := false
          dragStart := none
          originalPaths := paths })

/-- startDrag: records the drag origin when a selection exists. -/
def startDrag (point : DrawingPoint) (s : LassoState) : LassoState :=
  if s.selectedIndices.isEmpty then s
  else { s with isDragging := true, dragStart := some point }

/-- Rebuilt path list of one `drag` call: selected paths are recomputed from
the snapshot plus `delta = point - dragStart`; every other path (and any
selected index without a snapshot entry) is passed through unchanged. -/
def dragPaths (paths : List DrawingPath) (origPaths : List DrawingPath)
    (sel : List Nat) (dx dy : ℚ) : List DrawingPath :=
  paths.mapIdx (fun idx path =>
    if (sel.contains idx) = false then path
    else
      match origPaths.get? idx with
      | none => path
      | some op =>
        { path with points := op.points.map (fun pt => ⟨pt.x + dx, pt.y + dy⟩) })

/-- drag (`useLassoSelection.ts` lines 179–204): no-op unless a drag is in
progress; otherwise emits the rebuilt list through `onPathsChange`.  The
hook state — including the snapshot — is returned unchanged, exactly as the
source mutates nothing. -/
def drag (paths : List DrawingPath) (point : DrawingPoint) (s : LassoState) :
    Option (List DrawingPath) × LassoState :=
  match s.isDragging, s.dragStart with
  | true, some ds =>
    (some (dragPaths paths s.originalPaths s.selectedIndices (point.x - ds.x) (point.y - ds.y)), s)
  | _, _ => (none, s)

/-- endDrag: stops dragging, recomputes the bounding box from the current
positions and re-snapshots them as the new drag reference. -/
def endDrag (paths : List DrawingPath) (s : LassoState) : LassoState :=
  if s.isDragging = false then s
  else
    { s with isDragging := false
             dragStart := none
             boundingBox := calculateBoundingBox paths s.selectedIndices
             originalPaths := paths }

/-!
Specification-side predicates and concrete scenario data used to settle the
claims.
-/

/-- Straight monotone path: all points lie on one line `(a, b) + t · (vx,
vy)` with a monotone parameter, so the walk direction never reverses. -/
def IsStraightMono (pts : List DrawingPoint) : Prop :=
  ∃ a b vx vy : ℚ, ∃ t : ℕ → ℚ, Monotone t ∧
    ∀ k, k < pts.length → pts.get? k = some ⟨a + t k * vx, b + t k * vy⟩

/-- Invariant carried through `scratchAux` for straight paths: the stored
previous direction (if any) is a nonnegative multiple of `(vx, vy)`. -/
def PrevCone (vx vy : ℚ) : Option DrawingPoint → Prop
  | none => True
  | some d => ∃ c : ℚ, 0 ≤ c ∧ d.x = c * vx ∧ d.y = c * vy

/-- Window invariant for straight paths: every stride-2 difference along the
remaining window is a nonnegative multiple of `(vx, vy)`. -/
def windowCone (vx vy : ℚ) : DrawingPoint → DrawingPoint → List DrawingPoint → Prop
  | _, _, [] => True
  | p0, p1, p2 :: rest =>
    (∃ c : ℚ, 0 ≤ c ∧ p2.x - p0.x = c * vx ∧ p2.y - p0.y = c * vy) ∧
      windowCone vx vy p1 p2 rest

/-- Sixteen-point back-and-forth path: x alternates 0, 0, 1/10, 1/10, …, so
every stride-2 direction flips sign every other step (6 reversals ≥ 4) and
`isScratchPattern` classifies it as a scratch. -/
def exZig16 : DrawingPath :=
  { points :=
      [⟨0, 0⟩, ⟨0, 0⟩, ⟨1/10, 0⟩, ⟨1/10, 0⟩, ⟨0, 0⟩, ⟨0, 0⟩, ⟨1/10, 0⟩, ⟨1/10, 0⟩,
       ⟨0, 0⟩, ⟨0, 0⟩, ⟨1/10, 0⟩, ⟨1/10, 0⟩, ⟨0, 0⟩, ⟨0, 0⟩, ⟨1/10, 0⟩, ⟨1/10, 0⟩]
    color := "#000000"
    width := 2 }

/-- Fourteen-point version of the same back-and-forth path: it accumulates 5
direction reversals, yet is below the 15-point minimum. -/
def exZig14 : DrawingPath :=
  { points :=
      [⟨0, 0⟩, ⟨0, 0⟩, ⟨1/10, 0⟩, ⟨1/10, 0⟩, ⟨0, 0⟩, ⟨0, 0⟩, ⟨1/10, 0⟩, ⟨1/10, 0⟩,
       ⟨0, 0⟩, ⟨0, 0⟩, ⟨1/10, 0⟩, ⟨1/10, 0⟩, ⟨0, 0⟩, ⟨0, 0⟩]
    color := "#000000"
    width := 2 }

/-- Twenty-point straight horizontal path `(k/20, 0)`. -/
def exStraight20 : DrawingPath :=
  { points :=
      [⟨0, 0⟩, ⟨1/20, 0⟩, ⟨2/20, 0⟩, ⟨3/20, 0⟩, ⟨4/20, 0⟩, ⟨5/20, 0⟩, ⟨6/20, 0⟩,
       ⟨7/20, 0⟩, ⟨8/20, 0⟩, ⟨9/20, 0⟩, ⟨10/20, 0⟩, ⟨11/20, 0⟩, ⟨12/20, 0⟩,
       ⟨13/20, 0⟩, ⟨14/20, 0⟩, ⟨15/20, 0⟩, ⟨16/20, 0⟩, ⟨17/20, 0⟩, ⟨18/20, 0⟩,
       ⟨19/20, 0⟩]
    color := "#000000"
    width := 2 }

/-- Capture state holding the finished scratch-shaped stroke, as it is just
before `stopDrawing` runs. -/
def exScratchState : DrawState :=
  { isDrawing := true, currentPath := some exZig16, hasCtx := true }

/-- Two-point stroke from (0,0) to (0.1, 0) in normalized coordinates. -/
def exPathA : DrawingPath :=
  { points := [⟨0, 0⟩, ⟨1/10, 0⟩], color := "#000000", width := 2 }

/-- Ten-point closed square loop: the first and last points are 1/100 apart,
below the 0.05 closure threshold. -/
def exLoopSquare : DrawingPath :=
  { points :=
      [⟨0, 0⟩, ⟨1/2, 0⟩, ⟨1, 0⟩, ⟨1, 1/2⟩, ⟨1, 1⟩, ⟨1/2, 1⟩, ⟨0, 1⟩, ⟨0, 1/2⟩,
       ⟨0, 1/4⟩, ⟨0, 1/100⟩]
    color := "#000000"
    width := 2 }

/-- Two-point vertical stroke through the middle of `exLoopSquare`. -/
def exInnerPath : DrawingPath :=
  { points := [⟨1/2, 1/4⟩, ⟨1/2, 3/4⟩], color := "#ff0000", width := 2 }

/-- Ten-point straight stroke whose endpoints are 0.3 apart: long enough for
a loop but nowhere near closed. -/
def exOpenPath : DrawingPath :=
  { points :=
      [⟨0, 0⟩, ⟨1/30, 0⟩, ⟨2/30, 0⟩, ⟨3/30, 0⟩, ⟨4/30, 0⟩, ⟨5/30, 0⟩, ⟨6/30, 0⟩,
       ⟨7/30, 0⟩, ⟨8/30, 0⟩, ⟨9/30, 0⟩]
    color := "#000000"
    width := 2 }

/-- Idle lasso state (nothing selected, nothing dragging). -/
def exIdleLasso : LassoState :=
  { lassoPath := none, selectedIndices := [], boundingBox := none,
    isDragging := false, dragStart := none, originalPaths := [] }

/-- Active drag state: `exPathA` selected, snapshot taken, dragging from the
origin, with `exLoopSquare` recorded as the consumed loop stroke. -/
def exDragState : LassoState :=
  { lassoPath := some exLoopSquare, selectedIndices := [0], boundingBox := none,
    isDragging := true, dragStart := some ⟨0, 0⟩, originalPaths := [exPathA] }

/-- Six-point horizontal path at `(k/10, 0)`, used for the interior-erase
scenario (on a 100×100 canvas its pixel positions are `(10k, 0)`). -/
def exSixPath : DrawingPath :=
  { points := [⟨0, 0⟩, ⟨1/10, 0⟩, ⟨2/10, 0⟩, ⟨3/10, 0⟩, ⟨4/10, 0⟩, ⟨5/10, 0⟩]
    color := "#000000"
    width := 2 }

/-- Three-point path whose first two points are within 5 pixels of the
origin of a 100×100 canvas and whose last point is far away. -/
def exThreePath : DrawingPath :=
  { points := [⟨0, 0⟩, ⟨1/100, 0⟩, ⟨1/2, 1/2⟩], color := "#000000", width := 2 }

/-- Degenerate one-point path far from the origin (pixel position (75,75) on
a 100×100 canvas). -/
def exOnePointFar : DrawingPath :=
  { points := [⟨3/4, 3/4⟩], color := "#000000", width := 2 }

/-!
Theorems.  First the lemmas justifying the square-free embedding of the
distance comparisons, then the claims in order.
-/

/-- Faithfulness of `distanceLt`: it agrees with the source comparison
`Math.sqrt (dx² + dy²) < t` read over the reals. -/
theorem distanceLt_iff_sqrt (dx dy t : ℚ) :
    distanceLt dx dy t = true ↔
      Real.sqrt ((dx : ℝ) ^ 2 + (dy : ℝ) ^ 2) < (t : ℝ) := by
  unfold distanceLt
  rcases le_or_lt t 0 with ht | ht
  · constructor
    · intro h
      rw [Bool.and_eq_true, decide_eq_true_eq, decide_eq_true_eq] at h
      exact absurd h.1 (not_lt.mpr ht)
    · intro h
      exfalso
      have h0 : (0 : ℝ) ≤ Real.sqrt ((dx : ℝ) ^ 2 + (dy : ℝ) ^ 2) := Real.sqrt_nonneg _
      have ht2 : (t : ℝ) ≤ 0 := by exact_mod_cast ht
      linarith
  · rw [Real.sqrt_lt' (by exact_mod_cast ht), Bool.and_eq_true, decide_eq_true_eq,
      decide_eq_true_eq]
    constructor
    · intro h
      exact_mod_cast h.2
    · intro h
      exact ⟨ht, by exact_mod_cast h⟩

/-- Faithfulness of `distanceGt`: it agrees with the source comparison
`Math.sqrt (dx² + dy²) > t` read over the reals. -/
theorem distanceGt_iff_sqrt (dx dy t : ℚ) :
    distanceGt dx dy t = true ↔
      (t : ℝ) < Real.sqrt ((dx : ℝ) ^ 2 + (dy : ℝ) ^ 2) := by
  unfold distanceGt
  rcases lt_or_le t 0 with ht | ht
  · have h0 : (0 : ℝ) ≤ Real.sqrt ((dx : ℝ) ^ 2 + (dy : ℝ) ^ 2) := Real.sqrt_nonneg _
    have ht2 : (t : ℝ) < 0 := by exact_mod_cast ht
    simp only [Bool.or_eq_true, decide_eq_true_eq]
    constructor
    · intro _
      linarith
    · intro _
      exact Or.inl ht
  · rw [Real.lt_sqrt (by exact_mod_cast ht), Bool.or_eq_true, decide_eq_true_eq,
      decide_eq_true_eq]
    constructor
    · intro h
      rcases h with h | h
      · exact absurd h (not_lt.mpr ht)
      · exact_mod_cast h
    · intro h
      exact Or.inr (by exact_mod_cast h)

/-- C9: a `stopDrawing` call immediately following another `stopDrawing`
call finds the buffer cleared and the flag down, so it emits nothing through
either callback and leaves the already-reset state unchanged — the duplicate
finalize signal is swallowed as a no-op and `onPathComplete` fires at most
once per stroke. -/
theorem stopDrawing_duplicate_swallowed (s : DrawState) :
    stopDrawing (stopDrawing s).1 = ((stopDrawing s).1, ⟨none, none⟩) := by
  rcases s with ⟨d, cp, hc⟩
  cases d <;> cases cp <;> rfl

/-- C1 (amended): `stopDrawing` does not invoke the gesture classifier at
all — the scratch branch is commented out in the source — so whenever a
stroke is finalized the buffered path is emitted through `onPathComplete`
and `onScratchComplete` is never invoked, even when the path would be
classified as a scratch. -/
theorem stopDrawing_always_emits_ink (s : DrawState) (path : DrawingPath)
    (hd : s.isDrawing = true) (hp : s.currentPath = some path) :
    stopDrawing s = (⟨false, none, false⟩, ⟨some path, none⟩) := by
  rcases s with ⟨d, cp, hc⟩
  cases hd
  cases hp
  rfl

/-- Witness for C1 (amended), at the scratch-shaped 16-point stroke: even
there the path goes to `onPathComplete` and the scratch callback stays
silent. -/
theorem stopDrawing_always_emits_ink_witness :
    stopDrawing exScratchState = (⟨false, none, false⟩, ⟨some exZig16, none⟩) :=
  stopDrawing_always_emits_ink exScratchState exZig16 rfl rfl

/-- C1 (counterexample): the buffered path of `exScratchState` is classified
as a scratch by `isScratchPattern`, yet `stopDrawing` does not emit it via
`onScratchComplete`; it emits it as ordinary ink via `onPathComplete`. -/
theorem stopDrawing_scratch_counterexample :
    isScratchPattern exZig16 = true ∧
      (stopDrawing exScratchState).2.scratch = none ∧
      (stopDrawing exScratchState).2.completed = some exZig16 := by
  refine ⟨?_, rfl, rfl⟩
  norm_num [isScratchPattern, exZig16, directionChanges, scratchAux, scratchNoiseFloor]

/-- Helper: `PrevCone` holds vacuously for an empty previous direction. -/
theorem prevCone_none (vx vy : ℚ) : PrevCone vx vy none := by
  simp [PrevCone]

/-- Helper: along a path whose stride-2 differences all point into the
nonnegative cone of one direction `(vx, vy)`, the direction-change scan
never counts a reversal, because every dot product of two kept directions is
`c₁ · c₂ · (vx² + vy²) ≥ 0`. -/
theorem scratchAux_cone (vx vy : ℚ) :
    ∀ (rest : List DrawingPoint) (p0 p1 : DrawingPoint) (changes : Nat)
      (prev : Option DrawingPoint),
      windowCone vx vy p0 p1 rest → PrevCone vx vy prev →
      scratchAux changes prev p0 p1 rest = changes := by
  intro rest
  induction rest with
  | nil =>
    intro p0 p1 changes prev _ _
    rfl
  | cons p2 rest ih =>
    intro p0 p1 changes prev hw hp
    rw [windowCone] at hw
    obtain ⟨⟨c, hc, hdx, hdy⟩, hw2⟩ := hw
    rcases prev with _ | d
    · rw [scratchAux]
      split
      · exact ih p1 p2 changes none hw2 (prevCone_none vx vy)
      · exact ih p1 p2 changes _ hw2 ⟨c, hc, hdx, hdy⟩
    · rw [PrevCone] at hp
      obtain ⟨c1, hc1, hd1, hd2⟩ := hp
      rw [scratchAux]
      split
      · exact ih p1 p2 changes _ hw2 ⟨c1, hc1, hd1, hd2⟩
      · have hdot : ¬(d.x * (p2.x - p0.x) + d.y * (p2.y - p0.y) < 0) := by
          rw [hdx, hdy, hd1, hd2]
          have : c1 * vx * (c * vx) + c1 * vy * (c * vy) = c1 * c * (vx ^ 2 + vy ^ 2) := by
            ring
          rw [this]
          exact not_lt.mpr (mul_nonneg (mul_nonneg hc1 hc) (by positivity))
        rw [if_neg hdot]
        exact ih p1 p2 changes _ hw2 ⟨c, hc, hdx, hdy⟩

/-- Helper: a straight monotone parametrization yields the window-cone
invariant for the direction-change scan. -/
theorem straight_windowCone (vx vy a b : ℚ) :
    ∀ (rest : List DrawingPoint) (p0 p1 : DrawingPoint) (t : ℕ → ℚ),
      Monotone t →
      (∀ k, k < (p0 :: p1 :: rest).length →
        (p0 :: p1 :: rest).get? k = some ⟨a + t k * vx, b + t k * vy⟩) →
      windowCone vx vy p0 p1 rest := by
  intro rest
  induction rest with
  | nil =>
    intro p0 p1 t _ _
    rw [windowCone]
    trivial
  | cons p2 rest ih =>
    intro p0 p1 t ht hpts
    rw [windowCone]
    constructor
    · have h0 := hpts 0 (by simp)
      have h2 := hpts 2 (by simp)
      simp only [List.get?_cons_zero, List.get?_cons_succ, Option.some.injEq] at h0 h2
      refine ⟨t 2 - t 0, sub_nonneg.mpr (ht (by norm_num)), ?_, ?_⟩
      · rw [h0, h2]
        ring
      · rw [h0, h2]
        ring
    · refine ih p1 p2 (fun k => t (k + 1)) (fun i j hij => ht (Nat.succ_le_succ hij)) ?_
      intro k hk
      have := hpts (k + 1) (by simpa using Nat.succ_lt_succ hk)
      simpa using this

/-- C7 (amended): `isScratchPattern` returns `false` for every path with
fewer than 15 points and for every straight monotone collinear path of any
length; and for every path with at least 15 points it returns `true` iff the
number of counted direction reversals is at least 4.  (The unrestricted
"for every path" iff of the claim fails below 15 points, see the
counterexample.) -/
theorem scratch_classifier_characterization :
    (∀ path : DrawingPath, path.points.length < 15 → isScratchPattern path = false) ∧
    (∀ path : DrawingPath, IsStraightMono path.points → isScratchPattern path = false) ∧
    (∀ path : DrawingPath, 15 ≤ path.points.length →
      (isScratchPattern path = true ↔ 4 ≤ directionChanges path.points)) := by
  refine ⟨?_, ?_, ?_⟩
  · intro path h
    simp [isScratchPattern, h]
  · intro path hs
    have hdc : directionChanges path.points = 0 := by
      obtain ⟨a, b, vx, vy, t, ht, hpts⟩ := hs
      rcases hpp : path.points with _ | ⟨p0, _ | ⟨p1, rest⟩⟩
      · simp [directionChanges]
      · simp [directionChanges]
      · rw [directionChanges]
        exact scratchAux_cone vx vy rest p0 p1 0 none
          (straight_windowCone vx vy a b rest p0 p1 t ht (by rw [← hpp]; exact hpts))
          (prevCone_none vx vy)
    rw [isScratchPattern]
    split
    · rfl
    · simp [hdc]
  · intro path h15
    rw [isScratchPattern, if_neg (by omega)]
    simp

/-- C7 (counterexample): the 14-point back-and-forth path accumulates 5 ≥ 4
direction reversals, yet `isScratchPattern` returns `false` for it — so "for
every path it returns true iff the reversal count is at least 4" is false as
stated. -/
theorem scratch_short_zigzag_counterexample :
    isScratchPattern exZig14 = false ∧ 4 ≤ directionChanges exZig14.points := by
  constructor
  · norm_num [isScratchPattern, exZig14]
  · norm_num [directionChanges, exZig14, scratchAux, scratchNoiseFloor]

/-- Witness for C7 (amended): the three parts applied at the 14-point
zigzag, the straight 20-point path, and the 16-point scratch
respectively. -/
theorem scratch_classifier_witness :
    isScratchPattern exZig14 = false ∧ isScratchPattern exStraight20 = false ∧
      isScratchPattern exZig16 = true := by
  refine ⟨scratch_classifier_characterization.1 exZig14 (by norm_num [exZig14]),
    scratch_classifier_characterization.2.1 exStraight20
      ⟨0, 0, 1/20, 0, fun k => (k : ℚ), ?_, ?_⟩,
    (scratch_classifier_characterization.2.2 exZig16 (by norm_num [exZig16])).mpr ?_⟩
  · intro i j hij
    simpa using Nat.cast_le.mpr hij
  · intro k hk
    simp only [exStraight20, List.length_cons, List.length_nil] at hk
    interval_cases k <;> norm_num [exStraight20]
  · norm_num [directionChanges, exZig16, scratchAux, scratchNoiseFloor]

/-- Helper: one de-duplication step never shortens the buffer. -/
theorem dedupeStep_len (m : ℚ) (buf : List DrawingPoint) (p : DrawingPoint) :
    buf.length ≤ (dedupeStep m buf p).length := by
  cases hls : buf.getLast? with
  | none => simp [dedupeStep, hls]
  | some lastPt =>
    simp only [dedupeStep, hls]
    split <;> simp

/-- Helper: the batched de-duplication fold never shortens the buffer. -/
theorem dedupe_foldl_len (m : ℚ) :
    ∀ (pts : List DrawingPoint) (buf : List DrawingPoint),
      buf.length ≤ (pts.foldl (dedupeStep m) buf).length := by
  intro pts
  induction pts with
  | nil =>
    intro buf
    simp
  | cons p rest ih =>
    intro buf
    exact le_trans (dedupeStep_len m buf p) (ih (dedupeStep m buf p))

/-- Helper: in a capturing state, `draw` appends at least one point (the
normalized sample itself) to the buffer and touches nothing else. -/
theorem draw_appends (w h x y : ℚ) (s : DrawState) (path : DrawingPath)
    (hd : s.isDrawing = true) (hc : s.hasCtx = true)
    (hp : s.currentPath = some path) :
    ∃ added : List DrawingPoint,
      draw w h x y s =
        { s with currentPath := some { path with points := path.points ++ added } } ∧
      1 ≤ added.length := by
  rcases s with ⟨d, cp, ctx⟩
  cases hd
  cases hc
  cases hp
  cases hls : path.points.getLast? with
  | none =>
    exact ⟨[⟨x / w, y / h⟩], by simp [draw, hls], by simp⟩
  | some lp =>
    exact ⟨drawInterp lp (x / w) (y / h) (5 / min w h) ++ [⟨x / w, y / h⟩],
      by simp [draw, hls], by simp⟩

/-- Helper: in a capturing state, `drawBatch` only ever appends to the
buffer (it may drop every sample). -/
theorem drawBatch_appends (w h : ℚ) (pts : List (ℚ × ℚ)) (s : DrawState)
    (path : DrawingPath) (hd : s.isDrawing = true) (hc : s.hasCtx = true)
    (hp : s.currentPath = some path) :
    ∃ newPts : List DrawingPoint,
      drawBatch w h pts s =
        { s with currentPath := some { path with points := newPts } } ∧
      path.points.length ≤ newPts.length := by
  rcases s with ⟨d, cp, ctx⟩
  cases hd
  cases hc
  cases hp
  rcases pts with _ | ⟨p, rest⟩
  · exact ⟨path.points, rfl, le_refl _⟩
  · refine ⟨((p :: rest).map (fun q => (⟨q.1 / w, q.2 / h⟩ : DrawingPoint))).foldl
      (dedupeStep ((1 / 2 : ℚ) / min w h)) path.points, rfl, ?_⟩
    exact dedupe_foldl_len _ _ _

/-- Helper: every capture event preserves the capturing flags, only appends
to the buffer, and a `draw` event strictly grows it. -/
theorem applyEvent_state (w h : ℚ) (s : DrawState) (e : CaptureEvent)
    (path : DrawingPath) (hd : s.isDrawing = true) (hc : s.hasCtx = true)
    (hp : s.currentPath = some path) :
    ∃ pts2 : List DrawingPoint,
      applyEvent w h s e =
        { s with currentPath := some { path with points := pts2 } } ∧
      path.points.length ≤ pts2.length ∧
      (∀ x y, e = CaptureEvent.draw x y → path.points.length + 1 ≤ pts2.length) := by
  rcases e with ⟨x, y⟩ | ⟨pts⟩
  · obtain ⟨added, heq, hlen⟩ := draw_appends w h x y s path hd hc hp
    refine ⟨path.points ++ added, heq, by simp, ?_⟩
    intro _ _ _
    simp only [List.length_append]
    omega
  · obtain ⟨newPts, heq, hlen⟩ := drawBatch_appends w h pts s path hd hc hp
    refine ⟨newPts, heq, hlen, ?_⟩
    intro _ _ hco
    cases hco

/-- Helper: running a list of capture events from a capturing state keeps
the flags up and never shrinks the buffer below a given bound. -/
theorem runCapture_ge (w h : ℚ) :
    ∀ (es : List CaptureEvent) (s : DrawState) (path : DrawingPath) (n : Nat),
      s.isDrawing = true → s.hasCtx = true → s.currentPath = some path →
      n ≤ path.points.length →
      ∃ path2 : DrawingPath,
        (runCapture w h s es).isDrawing = true ∧
        (runCapture w h s es).hasCtx = true ∧
        (runCapture w h s es).currentPath = some path2 ∧
        n ≤ path2.points.length := by
  intro es
  induction es with
  | nil =>
    intro s path n hd hc hp hn
    exact ⟨path, hd, hc, hp, hn⟩
  | cons e rest ih =>
    intro s path n hd hc hp hn
    obtain ⟨pts2, heq, hlen, _⟩ := applyEvent_state w h s e path hd hc hp
    have hstep : runCapture w h s (e :: rest) =
        runCapture w h (applyEvent w h s e) rest := rfl
    rw [hstep, heq]
    exact ih _ { path with points := pts2 } n hd hc rfl (le_trans hn hlen)

/-- Helper: a finalize on a capturing state emits exactly the buffered path
through `onPathComplete` and resets the hook. -/
theorem stopDrawing_run (s : DrawState) (path : DrawingPath)
    (hd : s.isDrawing = true) (hp : s.currentPath = some path) :
    stopDrawing s = (⟨false, none, false⟩, ⟨some path, none⟩) := by
  rcases s with ⟨d, cp, hc⟩
  cases hd
  cases hp
  rfl

/-- C2 (amended): a capture sequence `start; events; stop` emits a path with
at least 2 points whenever at least one of the further samples arrives via
`draw` (which always appends the sample).  A sample arriving via `drawBatch`
can instead be dropped by the de-duplication filter when it is within the
minimum distance of the buffered point, in which case the claim fails (see
the counterexample). -/
theorem capture_draw_emits_two_points (w h x0 y0 : ℚ) (c : String) (wd : ℚ)
    (es : List CaptureEvent) (x y : ℚ) (hmem : CaptureEvent.draw x y ∈ es) :
    ∃ p : DrawingPath,
      (stopDrawing (runCapture w h (startDrawing w h x0 y0 c wd) es)).2.completed =
        some p ∧
      2 ≤ p.points.length := by
  obtain ⟨l1, l2, rfl⟩ := List.append_of_mem hmem
  have hsplit : runCapture w h (startDrawing w h x0 y0 c wd)
      (l1 ++ CaptureEvent.draw x y :: l2) =
      runCapture w h
        (applyEvent w h (runCapture w h (startDrawing w h x0 y0 c wd) l1)
          (CaptureEvent.draw x y)) l2 := by
    rw [runCapture, List.foldl_append]
    rfl
  obtain ⟨path1, hd1, hc1, hp1, hn1⟩ :=
    runCapture_ge w h l1 (startDrawing w h x0 y0 c wd)
      { points := [⟨x0 / w, y0 / h⟩], color := c, width := wd } 1 rfl rfl rfl (by simp)
  obtain ⟨pts2, heq2, _, hstrict⟩ :=
    applyEvent_state w h _ (CaptureEvent.draw x y) path1 hd1 hc1 hp1
  obtain ⟨path3, hd3, hc3, hp3, hn3⟩ :=
    runCapture_ge w h l2
      ({ isDrawing := (runCapture w h (startDrawing w h x0 y0 c wd) l1).isDrawing,
         currentPath := some { path1 with points := pts2 },
         hasCtx := (runCapture w h (startDrawing w h x0 y0 c wd) l1).hasCtx } : DrawState)
      { path1 with points := pts2 } 2 hd1 hc1 rfl
      (le_trans (by omega) (hstrict x y rfl))
  refine ⟨path3, ?_, hn3⟩
  rw [hsplit, heq2, stopDrawing_run _ path3 hd3 hp3]

/-- C2 (counterexample): starting at the raw point (0,0) on a 100×100
canvas, delivering one further raw sample (0.1, 0) through `drawBatch` — it
is dropped as being within the 0.5-pixel de-duplication distance of the
buffered point — and stopping emits a path with a single point, violating
the claimed `points.length ≥ 2`. -/
theorem capture_single_batch_sample_counterexample :
    (stopDrawing (runCapture 100 100 (startDrawing 100 100 0 0 "#000000" 2)
        [CaptureEvent.drawBatch [(1/10, 0)]])).2.completed =
      some { points := [⟨0, 0⟩], color := "#000000", width := 2 } ∧
    (1 : Nat) < 2 := by
  constructor
  · norm_num [runCapture, applyEvent, drawBatch, startDrawing, dedupeStep,
      distanceLt, stopDrawing]
  · norm_num

/-- Witness for C2 (amended): the concrete scenario with one `draw` sample
at (50,50) on a 100×100 canvas emits a 2-point path. -/
theorem capture_draw_emits_two_points_witness :
    ∃ p : DrawingPath,
      (stopDrawing (runCapture 100 100 (startDrawing 100 100 0 0 "#000000" 2)
          [CaptureEvent.draw 50 50])).2.completed = some p ∧
      2 ≤ p.points.length :=
  capture_draw_emits_two_points 100 100 0 0 "#000000" 2
    [CaptureEvent.draw 50 50] 50 50 (by simp)

/-- Helper: positional lookup in an index-aware map. -/
theorem get?_mapIdx {α β : Type} :
    ∀ (l : List α) (f : ℕ → α → β) (i : ℕ),
      (l.mapIdx f).get? i = (l.get? i).map (f i) := by
  intro l
  induction l with
  | nil =>
    intro f i
    simp
  | cons a l ih =>
    intro f i
    rw [List.mapIdx_cons]
    cases i with
    | zero => simp
    | succ j =>
      simp only [List.get?_cons_succ]
      exact ih (fun k => f (k + 1)) j

/-- Helper: unfolding of an in-progress `drag` call. -/
theorem drag_eq (paths : List DrawingPath) (point : DrawingPoint) (s : LassoState)
    (ds : DrawingPoint) (hdrag : s.isDragging = true) (hds : s.dragStart = some ds) :
    drag paths point s =
      (some (dragPaths paths s.originalPaths s.selectedIndices
        (point.x - ds.x) (point.y - ds.y)), s) := by
  rw [drag, hdrag, hds]

/-- Helper: entry `idx` of the rebuilt drag list for a selected index with a
snapshot entry. -/
theorem dragPaths_get_selected (paths origPaths : List DrawingPath)
    (sel : List Nat) (dx dy : ℚ) (idx : Nat) (cur op : DrawingPath)
    (hcur : paths.get? idx = some cur) (hsel : idx ∈ sel)
    (hop : origPaths.get? idx = some op) :
    (dragPaths paths origPaths sel dx dy).get? idx =
      some { cur with points := op.points.map (fun pt => ⟨pt.x + dx, pt.y + dy⟩) } := by
  rw [dragPaths, get?_mapIdx, hcur]
  have hop2 : origPaths[idx]? = some op := by simpa using hop
  simp [hsel, hop2]

/-- Helper: entry `idx` of the rebuilt drag list for an unselected index. -/
theorem dragPaths_get_unselected (paths origPaths : List DrawingPath)
    (sel : List Nat) (dx dy : ℚ) (idx : Nat) (cur : DrawingPath)
    (hcur : paths.get? idx = some cur) (hsel : idx ∉ sel) :
    (dragPaths paths origPaths sel dx dy).get? idx = some cur := by
  rw [dragPaths, get?_mapIdx, hcur]
  simp [hsel]

/-- C4: with an active selection, two successive `drag(p1)`, `drag(p2)`
calls with no intervening `endDrag` leave every selected path at
`snapshot + (p2 - dragStart)` — not at the cumulative
`snapshot + (p1 - dragStart) + (p2 - dragStart)` — because each call
recomputes from the immutable snapshot; and neither call mutates the hook
state, so the snapshot origin is stable. -/
theorem drag_relative_not_cumulative (paths : List DrawingPath) (s : LassoState)
    (ds p1 p2 : DrawingPoint) (hdrag : s.isDragging = true)
    (hds : s.dragStart = some ds) (idx : Nat) (hsel : idx ∈ s.selectedIndices)
    (op cur : DrawingPath) (hop : s.originalPaths.get? idx = some op)
    (hcur : paths.get? idx = some cur) :
    ∃ l1 l2 : List DrawingPath,
      (drag paths p1 s).1 = some l1 ∧ (drag paths p1 s).2 = s ∧
      (drag l1 p2 s).1 = some l2 ∧ (drag l1 p2 s).2 = s ∧
      ∃ q : DrawingPath, l2.get? idx = some q ∧
        q.points = op.points.map
          (fun pt => ⟨pt.x + (p2.x - ds.x), pt.y + (p2.y - ds.y)⟩) := by
  refine ⟨dragPaths paths s.originalPaths s.selectedIndices (p1.x - ds.x) (p1.y - ds.y),
    dragPaths (dragPaths paths s.originalPaths s.selectedIndices (p1.x - ds.x) (p1.y - ds.y))
      s.originalPaths s.selectedIndices (p2.x - ds.x) (p2.y - ds.y),
    ?_, ?_, ?_, ?_, ?_⟩
  · rw [drag_eq paths p1 s ds hdrag hds]
  · rw [drag_eq paths p1 s ds hdrag hds]
  · rw [drag_eq _ p2 s ds hdrag hds]
  · rw [drag_eq _ p2 s ds hdrag hds]
  · have h1 : (dragPaths paths s.originalPaths s.selectedIndices
        (p1.x - ds.x) (p1.y - ds.y)).get? idx =
        some { cur with points := (op.points.map (fun pt => ⟨pt.x + (p1.x - ds.x), pt.y + (p1.y - ds.y)⟩)) } :=
      dragPaths_get_selected paths s.originalPaths s.selectedIndices _ _ idx cur op
        hcur hsel hop
    refine ⟨_, dragPaths_get_selected _ s.originalPaths s.selectedIndices
      (p2.x - ds.x) (p2.y - ds.y) idx _ op h1 hsel hop, rfl⟩

/-- Witness for C4: dragging the selected two-point stroke from the origin
to (1/10, 1/10) and then to (1/5, 0) leaves it at snapshot + (1/5, 0). -/
theorem drag_relative_not_cumulative_witness :
    ∃ l1 l2 : List DrawingPath,
      (drag [exPathA] ⟨1/10, 1/10⟩ exDragState).1 = some l1 ∧
      (drag [exPathA] ⟨1/10, 1/10⟩ exDragState).2 = exDragState ∧
      (drag l1 ⟨1/5, 0⟩ exDragState).1 = some l2 ∧
      (drag l1 ⟨1/5, 0⟩ exDragState).2 = exDragState ∧
      ∃ q : DrawingPath, l2.get? 0 = some q ∧
        q.points = exPathA.points.map
          (fun pt => ⟨pt.x + ((1:ℚ)/5 - 0), pt.y + ((0:ℚ) - 0)⟩) :=
  drag_relative_not_cumulative [exPathA] exDragState ⟨0, 0⟩ ⟨1/10, 1/10⟩ ⟨1/5, 0⟩
    rfl rfl 0 (by simp [exDragState]) exPathA exPathA rfl rfl

/-- C5 (amended): each `drag` call writes back a list of the same length in
which every selected path with a snapshot entry is recomputed as
`snapshot_point + delta` and every non-selected path is passed through
unchanged; the hook state — in particular the recorded loop stroke and the
snapshot — is untouched.  The loop stroke itself is not part of the host
list and is not rewritten (see the counterexample). -/
theorem drag_frame_effect (paths : List DrawingPath) (s : LassoState)
    (point ds : DrawingPoint) (hdrag : s.isDragging = true)
    (hds : s.dragStart = some ds) :
    ∃ l : List DrawingPath,
      (drag paths point s).1 = some l ∧ (drag paths point s).2 = s ∧
      l.length = paths.length ∧
      (∀ idx cur, paths.get? idx = some cur → idx ∉ s.selectedIndices →
        l.get? idx = some cur) ∧
      (∀ idx cur op, paths.get? idx = some cur → idx ∈ s.selectedIndices →
        s.originalPaths.get? idx = some op →
        l.get? idx = some { cur with points := (op.points.map (fun pt => ⟨pt.x + (point.x - ds.x), pt.y + (point.y - ds.y)⟩)) }) := by
  refine ⟨dragPaths paths s.originalPaths s.selectedIndices
    (point.x - ds.x) (point.y - ds.y), ?_, ?_, ?_, ?_, ?_⟩
  · rw [drag_eq paths point s ds hdrag hds]
  · rw [drag_eq paths point s ds hdrag hds]
  · simp [dragPaths]
  · intro idx cur hcur hsel
    exact dragPaths_get_unselected paths s.originalPaths s.selectedIndices _ _ idx cur
      hcur hsel
  · intro idx cur op hcur hsel hop
    exact dragPaths_get_selected paths s.originalPaths s.selectedIndices _ _ idx cur op
      hcur hsel hop

/-- Witness for C5 (amended), at the concrete one-path drag scenario. -/
theorem drag_frame_effect_witness :
    ∃ l : List DrawingPath,
      (drag [exPathA] ⟨1/10, 1/10⟩ exDragState).1 = some l ∧
      (drag [exPathA] ⟨1/10, 1/10⟩ exDragState).2 = exDragState ∧
      l.length = [exPathA].length ∧
      (∀ idx cur, [exPathA].get? idx = some cur → idx ∉ exDragState.selectedIndices →
        l.get? idx = some cur) ∧
      (∀ idx cur op, [exPathA].get? idx = some cur →
        idx ∈ exDragState.selectedIndices →
        exDragState.originalPaths.get? idx = some op →
        l.get? idx = some { cur with points := (op.points.map (fun pt => ⟨pt.x + ((1:ℚ)/10 - 0), pt.y + ((1:ℚ)/10 - 0)⟩)) }) :=
  drag_frame_effect [exPathA] exDragState ⟨1/10, 1/10⟩ ⟨0, 0⟩ rfl rfl

/-- C5 (counterexample): in the concrete drag scenario the written-back list
is exactly the moved selected stroke; no element of it is the loop stroke
recomputed by the delta, so "every point of the loop stroke … is recomputed
and written back" fails — the loop stroke is simply not part of the written
list. -/
theorem drag_loop_stroke_counterexample :
    ∃ l : List DrawingPath,
      (drag [exPathA] ⟨1/10, 1/10⟩ exDragState).1 = some l ∧
      exDragState.lassoPath = some exLoopSquare ∧
      ∀ q ∈ l, q.points ≠ exLoopSquare.points.map
        (fun pt => ⟨pt.x + ((1:ℚ)/10 - 0), pt.y + ((1:ℚ)/10 - 0)⟩) := by
  refine ⟨[{ points := [⟨1/10, 1/10⟩, ⟨1/5, 1/10⟩], color := "#000000", width := 2 }],
    ?_, rfl, ?_⟩
  · norm_num [drag, exDragState, dragPaths, exPathA, List.mapIdx_cons]
  · intro q hq hcontra
    rw [List.mem_singleton] at hq
    have hlen := congrArg List.length hcontra
    rw [hq] at hlen
    simp [exLoopSquare] at hlen

/-- C6: `checkForLasso` returns `false` and leaves the selection state
unchanged whenever the finalized path has fewer than 10 points, or the
distance between its first and last point is not below the closure
threshold, or no existing path reaches the selection ratio inside the loop;
and only otherwise — at least 10 points, closed, and a nonempty selection —
does it return `true` and activate the selection (recording the loop, the
selected indices, their bounding box, and the snapshot of the current
paths). -/
theorem checkForLasso_gate (paths : List DrawingPath) (ct ratio : ℚ)
    (path : DrawingPath) (s : LassoState) :
    ((path.points.length < 10 ∨
        distanceLt ((path.points.getLastD ⟨0, 0⟩).x - (path.points.headD ⟨0, 0⟩).x)
          ((path.points.getLastD ⟨0, 0⟩).y - (path.points.headD ⟨0, 0⟩).y) ct = false ∨
        selectedIndicesFor paths path.points ratio = []) →
      checkForLasso paths ct ratio path s = (false, s)) ∧
    (10 ≤ path.points.length →
      distanceLt ((path.points.getLastD ⟨0, 0⟩).x - (path.points.headD ⟨0, 0⟩).x)
        ((path.points.getLastD ⟨0, 0⟩).y - (path.points.headD ⟨0, 0⟩).y) ct = true →
      selectedIndicesFor paths path.points ratio ≠ [] →
      checkForLasso paths ct ratio path s =
        (true,
          { lassoPath := some path
            selectedIndices := selectedIndicesFor paths path.points ratio
            boundingBox :=
              calculateBoundingBox paths (selectedIndicesFor paths path.points ratio)
            isDragging := false
            dragStart := none
            originalPaths := paths })) := by
  constructor
  · intro h
    rcases h with h | h | h
    · have hcl : isClosedLoop path ct = false := by
        rw [isClosedLoop, if_pos h]
      rw [checkForLasso, if_pos hcl]
    · have hcl : isClosedLoop path ct = false := by
        rw [isClosedLoop]
        split
        · rfl
        · exact h
      rw [checkForLasso, if_pos hcl]
    · by_cases hcl : isClosedLoop path ct = false
      · rw [checkForLasso, if_pos hcl]
      · rw [checkForLasso, if_neg hcl]
        simp [h]
  · intro h10 hdist hsel
    have hcl : isClosedLoop path ct = true := by
      rw [isClosedLoop, if_neg (by omega)]
      exact hdist
    have hselE : (selectedIndicesFor paths path.points ratio).isEmpty = false := by
      simp [List.isEmpty_iff, hsel]
    rw [checkForLasso, if_neg (by simp [hcl])]
    simp [hselE]

/-- Witness for C6: the open 10-point stroke (endpoints 0.3 apart, above the
0.05 closure threshold) leaves the idle state unchanged, while the closed
square loop around the vertical stroke activates a selection. -/
theorem checkForLasso_gate_witness :
    checkForLasso [exPathA] (1/20) (1/2) exOpenPath exIdleLasso =
      (false, exIdleLasso) ∧
    (checkForLasso [exInnerPath] (1/20) (1/2) exLoopSquare exIdleLasso).1 = true := by
  constructor
  · exact (checkForLasso_gate [exPathA] (1/20) (1/2) exOpenPath exIdleLasso).1
      (Or.inr (Or.inl (by norm_num [exOpenPath, distanceLt])))
  · rw [(checkForLasso_gate [exInnerPath] (1/20) (1/2) exLoopSquare exIdleLasso).2
      (by norm_num [exLoopSquare]) (by norm_num [exLoopSquare, distanceLt])
      (by norm_num [selectedIndicesFor, exInnerPath, exLoopSquare, List.enum,
        isPathInsideLasso, isPointInPolygon, rayStep]; simp)]

/-- Helper: collecting `pathsToModify` from index `i + 1` yields the same
entries as from index `i`, with every path index shifted by one. -/
theorem buildModsAux_succ (w h x y r : ℚ) :
    ∀ (l : List DrawingPath) (i : Nat),
      buildModsAux w h x y r (i + 1) l =
        (buildModsAux w h x y r i l).map (fun m => (m.1 + 1, m.2)) := by
  intro l
  induction l with
  | nil =>
    intro i
    simp [buildModsAux]
  | cons p rest ih =>
    intro i
    rw [buildModsAux, buildModsAux, List.map_append, ← ih (i + 1)]
    congr 1
    split <;> simp

/-- Helper: a splice at a shifted index leaves the head element alone. -/
theorem applyMod_cons (p : DrawingPath) (acc : List DrawingPath) (i : Nat)
    (idxs : List Nat) :
    applyMod (p :: acc) (i + 1, idxs) = p :: applyMod acc (i, idxs) := by
  rw [applyMod, applyMod]
  simp only [List.get?_cons_succ]
  cases h : acc.get? i with
  | none => rfl
  | some path =>
    simp [List.take_succ_cons, List.drop_succ_cons]

/-- Helper: folding splices whose indices are all shifted by one over a list
with one extra head element splices the tail and keeps the head. -/
theorem foldl_applyMod_shift :
    ∀ (ms : List (Nat × List Nat)) (p : DrawingPath) (acc : List DrawingPath),
      (ms.map (fun m => (m.1 + 1, m.2))).foldl applyMod (p :: acc) =
        p :: ms.foldl applyMod acc := by
  intro ms
  induction ms with
  | nil =>
    intro p acc
    rfl
  | cons m rest ih =>
    intro p acc
    rcases m with ⟨i, idxs⟩
    rw [List.map_cons, List.foldl_cons, List.foldl_cons, applyMod_cons]
    exact ih p (applyMod acc (i, idxs))

/-- Helper: a splice at index 0 replaces the head by its sub-paths. -/
theorem applyMod_zero (p : DrawingPath) (acc : List DrawingPath) (idxs : List Nat) :
    applyMod (p :: acc) (0, idxs) = splitPath p idxs ++ acc := by
  rw [applyMod]
  simp

/-- Helper: the back-to-front splice loop of `eraseAtPosition` is equal to
replacing every path, in place, by its block of surviving sub-paths (the
path itself when it is not hit). -/
theorem erase_splice_eq_flatten (w h x y r : ℚ) :
    ∀ paths : List DrawingPath,
      (buildMods w h x y r paths).reverse.foldl applyMod paths =
        (paths.map (fun p =>
          if (hitIndices w h x y r p.points).isEmpty then [p]
          else splitPath p (hitIndices w h x y r p.points))).flatten := by
  intro paths
  induction paths with
  | nil => rfl
  | cons p rest ih =>
    rw [buildMods] at ih ⊢
    simp only [buildModsAux]
    rw [buildModsAux_succ w h x y r rest 0, List.map_cons, List.flatten_cons, ← ih]
    by_cases hE : (hitIndices w h x y r p.points).isEmpty = true
    · rw [if_pos hE, if_pos hE, List.nil_append, ← List.map_reverse,
        foldl_applyMod_shift]
      simp
    · rw [if_neg hE, if_neg hE, List.reverse_append, ← List.map_reverse,
        List.foldl_append, foldl_applyMod_shift]
      simp [applyMod_zero]

/-- Helper: when no path has a point in range, no modification entry is
collected, from any starting index. -/
theorem buildModsAux_nil_of_miss (w h x y r : ℚ) :
    ∀ (paths : List DrawingPath) (i : Nat),
      (∀ p ∈ paths, hitIndices w h x y r p.points = []) →
      buildModsAux w h x y r i paths = [] := by
  intro paths
  induction paths with
  | nil =>
    intro i _
    rfl
  | cons p rest ih =>
    intro i hmiss
    rw [buildModsAux]
    have hp : hitIndices w h x y r p.points = [] := hmiss p (by simp)
    rw [hp]
    simp only [List.isEmpty_nil, if_pos rfl, List.nil_append]
    exact ih (i + 1) (fun q hq => hmiss q (by simp [hq]))

/-- C10: an erase call whose hit position is not within the eraser radius of
any point of any path does not invoke `onPathsChange` at all, so the host
path list is left completely unchanged. -/
theorem erase_miss_no_callback (w h r x y : ℚ) (lastPos : Option (ℚ × ℚ))
    (paths : List DrawingPath)
    (hmiss : ∀ p ∈ paths, hitIndices w h x y r p.points = []) :
    (eraseAtPosition w h r x y lastPos paths).2 = none := by
  have hcore : eraseCore w h r x y paths = none := by
    rw [eraseCore, buildMods, buildModsAux_nil_of_miss w h x y r paths 0 hmiss]
    rfl
  rcases lastPos with _ | lp
  · simp [eraseAtPosition, hcore]
  · simp only [eraseAtPosition]
    split
    · rfl
    · simp [hcore]

/-- Witness for C10: erasing at pixel (90,90) on a 100×100 canvas misses the
two-point stroke near the origin entirely, and no callback fires. -/
theorem erase_miss_no_callback_witness :
    (eraseAtPosition 100 100 5 90 90 none [exPathA]).2 = none :=
  erase_miss_no_callback 100 100 5 90 90 none [exPathA] (by
    intro p hp
    rw [List.mem_singleton] at hp
    subst hp
    norm_num [hitIndices, exPathA, eraserHit, distanceLt, List.enum])

/-- C8 (amended): whenever an erase call emits a replacement list, that list
is exactly the in-place flattening of per-path blocks — each unhit path
contributes itself, each hit path contributes its surviving sub-paths, in
the original relative order — filtered of paths with fewer than 2 points; in
particular every emitted path has ≥ 2 points, and every unhit path *with at
least 2 points* appears unchanged.  (An unhit path with fewer than 2 points
is dropped by the final filter, so the claim as stated fails for it, see the
counterexample.) -/
theorem erase_frame_effect (w h r x y : ℚ) (paths : List DrawingPath)
    (out : List DrawingPath) (hout : eraseCore w h r x y paths = some out) :
    out = ((paths.map (fun p =>
        if (hitIndices w h x y r p.points).isEmpty then [p]
        else splitPath p (hitIndices w h x y r p.points))).flatten).filter
        (fun p => 2 ≤ p.points.length) ∧
    (∀ q ∈ out, 2 ≤ q.points.length) ∧
    (∀ p ∈ paths, hitIndices w h x y r p.points = [] → 2 ≤ p.points.length →
      p ∈ out) := by
  have hflat := erase_splice_eq_flatten w h x y r paths
  rw [eraseCore] at hout
  split at hout
  · cases hout
  · rw [hflat] at hout
    have hE := Option.some.inj hout
    refine ⟨hE.symm, ?_, ?_⟩
    · intro q hq
      rw [← hE] at hq
      have := List.of_mem_filter hq
      simpa using this
    · intro p hp hpmiss hp2
      rw [← hE]
      apply List.mem_filter.mpr
      constructor
      · apply List.mem_flatten.mpr
        refine ⟨_, List.mem_map_of_mem _ hp, ?_⟩
        simp [hpmiss]
      · simpa using hp2

/-- Witness for C8 (amended), at the interior-erase scenario on the 6-point
path: the emitted list is the two surviving segments, both with ≥ 2 points,
and the characterization applies. -/
theorem erase_frame_effect_witness :
    ([{ points := [⟨0, 0⟩, ⟨1/10, 0⟩], color := "#000000", width := 2 },
      { points := [⟨2/5, 0⟩, ⟨1/2, 0⟩], color := "#000000", width := 2 }] :
        List DrawingPath) =
      (([exSixPath].map (fun p =>
        if (hitIndices 100 100 25 0 10 p.points).isEmpty then [p]
        else splitPath p (hitIndices 100 100 25 0 10 p.points))).flatten).filter
        (fun p => 2 ≤ p.points.length) ∧
    (∀ q ∈ ([{ points := [⟨0, 0⟩, ⟨1/10, 0⟩], color := "#000000", width := 2 },
      { points := [⟨2/5, 0⟩, ⟨1/2, 0⟩], color := "#000000", width := 2 }] :
        List DrawingPath), 2 ≤ q.points.length) ∧
    (∀ p ∈ [exSixPath], hitIndices 100 100 25 0 10 p.points = [] →
      2 ≤ p.points.length →
      p ∈ ([{ points := [⟨0, 0⟩, ⟨1/10, 0⟩], color := "#000000", width := 2 },
        { points := [⟨2/5, 0⟩, ⟨1/2, 0⟩], color := "#000000", width := 2 }] :
          List DrawingPath)) :=
  erase_frame_effect 100 100 10 25 0 [exSixPath] _ (by
    norm_num [eraseCore, buildMods, buildModsAux, hitIndices, eraserHit,
      distanceLt, List.enum, applyMod, splitPath, rangesOf, buildRanges,
      segmentsLoop, exSixPath])

/-- C8 (counterexample): erasing the middle of the 6-point path while a
degenerate one-point path (nowhere near the eraser) is also in the list
emits only the two surviving segments: the one-point path had no point
within the radius, yet it does not appear (unchanged or at all) in the
emitted list — the final filter drops it. -/
theorem erase_drops_degenerate_counterexample :
    eraseCore 100 100 10 25 0 [exOnePointFar, exSixPath] =
      some [{ points := [⟨0, 0⟩, ⟨1/10, 0⟩], color := "#000000", width := 2 },
            { points := [⟨2/5, 0⟩, ⟨1/2, 0⟩], color := "#000000", width := 2 }] ∧
    hitIndices 100 100 25 0 10 exOnePointFar.points = [] ∧
    exOnePointFar ∉
      ([{ points := [⟨0, 0⟩, ⟨1/10, 0⟩], color := "#000000", width := 2 },
        { points := [⟨2/5, 0⟩, ⟨1/2, 0⟩], color := "#000000", width := 2 }] :
          List DrawingPath) := by
  refine ⟨?_, ?_, ?_⟩
  · norm_num [eraseCore, buildMods, buildModsAux, hitIndices, eraserHit,
      distanceLt, List.enum, applyMod, splitPath, rangesOf, buildRanges,
      segmentsLoop, exSixPath, exOnePointFar]
  · norm_num [hitIndices, exOnePointFar, eraserHit, distanceLt, List.enum]
  · intro hmem
    rcases List.mem_cons.mp hmem with h | h
    · exact absurd (congrArg (fun q => q.points.length) h) (by norm_num [exOnePointFar])
    · rw [List.mem_singleton] at h
      exact absurd (congrArg (fun q => q.points.length) h) (by norm_num [exOnePointFar])

/-- Helper: merging a run of consecutive indices extends the open range to
its end. -/
theorem buildRanges_range :
    ∀ (k a e : Nat), buildRanges (List.range' (e + 1) k) a e = [(a, e + k)] := by
  intro k
  induction k with
  | zero =>
    intro a e
    simp [buildRanges]
  | succ n ih =>
    intro a e
    rw [List.range'_succ, buildRanges, if_pos rfl, ih a (e + 1)]
    have : e + 1 + n = e + (n + 1) := by omega
    rw [this]

/-- Helper: a single contiguous block of hit indices merges into exactly one
closed range. -/
theorem rangesOf_range (a m : Nat) (hm : 0 < m) :
    rangesOf (List.range' a m) = [(a, a + m - 1)] := by
  rcases m with _ | n
  · omega
  · rw [List.range'_succ, rangesOf, buildRanges_range]
    have : a + n = a + (n + 1) - 1 := by omega
    rw [this]

/-- Helper: splitting a path at the erased contiguous range `[a, b]` yields
the head piece (when the range does not touch the start and the piece has ≥2
points) followed by the tail piece (when the range does not touch the end
and the piece has ≥2 points). -/
theorem splitPath_range (path : DrawingPath) (a b : Nat) (hab : a ≤ b)
    (hbn : b < path.points.length) :
    splitPath path (List.range' a (b + 1 - a)) =
      (if 0 < a ∧ 2 ≤ a then
        [{ points := path.points.take a, color := path.color, width := path.width }]
      else []) ++
      (if b + 1 < path.points.length ∧ 2 ≤ path.points.length - (b + 1) then
        [{ points := path.points.drop (b + 1), color := path.color,
           width := path.width }]
      else []) := by
  have hm : 0 < b + 1 - a := by omega
  rw [splitPath, rangesOf_range a (b + 1 - a) hm]
  have hab2 : a + (b + 1 - a) - 1 = b := by omega
  rw [hab2]
  have h1 : (path.points.take a).length = a := by
    rw [List.length_take]
    omega
  have h2 : (path.points.drop (b + 1)).length = path.points.length - (b + 1) :=
    List.length_drop _ _
  simp only [segmentsLoop, List.drop_zero, Nat.sub_zero, h1, h2]

/-- Helper: an erase call on a single path with a nonempty hit set replaces
it by its surviving sub-paths (filtered of degenerate pieces). -/
theorem eraseCore_single (w h r x y : ℚ) (path : DrawingPath) (idxs : List Nat)
    (hhit : hitIndices w h x y r path.points = idxs) (hne : idxs ≠ []) :
    eraseCore w h r x y [path] =
      some ((splitPath path idxs).filter (fun p => 2 ≤ p.points.length)) := by
  have hE : idxs.isEmpty = false := by simp [List.isEmpty_iff, hne]
  rw [eraseCore, buildMods]
  simp only [buildModsAux, hhit, hE]
  simp [applyMod_zero]

/-- C3 (amended): erasing a single contiguous index range `[a, b]` from an
`n`-point path yields exactly two sub-paths — `points[0..a-1]` and
`points[b+1..n-1]` — when the range is interior and both remainders have ≥2
points; exactly one sub-path when the range touches exactly one end *and the
surviving remainder has ≥2 points*; and zero sub-paths when the range covers
the whole path.  (When the range touches one end and the remainder has fewer
than 2 points, zero sub-paths survive, contradicting the claim as stated —
see the counterexample.) -/
theorem eraser_split_cases (w h r x y : ℚ) (path : DrawingPath) (a b : Nat)
    (hhit : hitIndices w h x y r path.points = List.range' a (b + 1 - a))
    (hab : a ≤ b) (hbn : b < path.points.length) :
    (0 < a → b + 1 < path.points.length → 2 ≤ a →
      2 ≤ path.points.length - (b + 1) →
      eraseCore w h r x y [path] =
        some [{ points := path.points.take a, color := path.color,
                width := path.width },
              { points := path.points.drop (b + 1), color := path.color,
                width := path.width }]) ∧
    (a = 0 → b + 1 < path.points.length → 2 ≤ path.points.length - (b + 1) →
      eraseCore w h r x y [path] =
        some [{ points := path.points.drop (b + 1), color := path.color,
                width := path.width }]) ∧
    (0 < a → b + 1 = path.points.length → 2 ≤ a →
      eraseCore w h r x y [path] =
        some [{ points := path.points.take a, color := path.color,
                width := path.width }]) ∧
    (a = 0 → b + 1 = path.points.length →
      eraseCore w h r x y [path] = some []) := by
  have hne : List.range' a (b + 1 - a) ≠ [] := by
    intro hcontra
    have := List.range'_eq_nil.mp hcontra
    omega
  have hsingle := eraseCore_single w h r x y path _ hhit hne
  rw [splitPath_range path a b hab hbn] at hsingle
  have h1 : (path.points.take a).length = a := by
    rw [List.length_take]
    omega
  have h2 : (path.points.drop (b + 1)).length = path.points.length - (b + 1) :=
    List.length_drop _ _
  refine ⟨?_, ?_, ?_, ?_⟩
  · intro h0a hb1 h2a h2t
    rw [hsingle, if_pos ⟨h0a, h2a⟩, if_pos ⟨hb1, h2t⟩]
    simp [List.filter_cons, h1, h2, h2a, h2t]
  · intro h0a hb1 h2t
    rw [hsingle, if_neg (by omega), if_pos ⟨hb1, h2t⟩]
    simp [List.filter_cons, h2, h2t]
  · intro h0a hb1 h2a
    rw [hsingle, if_pos ⟨h0a, h2a⟩, if_neg (by omega)]
    simp [List.filter_cons, h1, h2a]
  · intro h0a hb1
    rw [hsingle, if_neg (by omega), if_neg (by omega)]
    rfl

/-- Witness for C3 (amended): erasing the interior indices {2, 3} of the
6-point path (eraser at pixel (25, 0), radius 10, on a 100×100 canvas)
yields exactly the two surviving sub-paths. -/
theorem eraser_split_cases_witness :
    eraseCore 100 100 10 25 0 [exSixPath] =
      some [{ points := exSixPath.points.take 2, color := exSixPath.color,
              width := exSixPath.width },
            { points := exSixPath.points.drop 4, color := exSixPath.color,
              width := exSixPath.width }] :=
  (eraser_split_cases 100 100 10 25 0 exSixPath 2 3
      (by norm_num [hitIndices, exSixPath, eraserHit, distanceLt, List.enum,
        List.range'])
      (by norm_num) (by norm_num [exSixPath])).1
    (by norm_num) (by norm_num [exSixPath]) (by norm_num) (by norm_num [exSixPath])

/-- C3 (counterexample): erasing the range {0, 1} — which touches the start
of the 3-point path but not its end — leaves a 1-point remainder, so zero
sub-paths survive, not the single sub-path the claim promises for a range
touching one end. -/
theorem eraser_one_end_counterexample :
    hitIndices 100 100 0 0 5 exThreePath.points = [0, 1] ∧
    exThreePath.points.length = 3 ∧
    eraseCore 100 100 5 0 0 [exThreePath] = some [] := by
  refine ⟨?_, by norm_num [exThreePath], ?_⟩
  · norm_num [hitIndices, exThreePath, eraserHit, distanceLt, List.enum]
  · norm_num [eraseCore, buildMods, buildModsAux, hitIndices, eraserHit,
      distanceLt, List.enum, applyMod, splitPath, rangesOf, buildRanges,
      segmentsLoop, exThreePath]

/-- Faithfulness of the dot-product reversal test of `scratchAux`: for two
nonzero direction vectors `u = (ux, uy)` and `v = (vx, vy)`, any value `d`
congruent to `atan2(v) - atan2(u)` modulo `2π` and lying in `[-π, π]` — which
is exactly what the two `while` normalization loops of `isScratchPattern`
produce — satisfies `|d| > π/2` iff the dot product `u · v` is negative.
`atan2(dy, dx)` is `Complex.arg ⟨dx, dy⟩`. -/
theorem angle_reversal_iff_dot_neg (ux uy vx vy : ℝ)
    (hu : (⟨ux, uy⟩ : ℂ) ≠ 0) (hv : (⟨vx, vy⟩ : ℂ) ≠ 0) (d : ℝ) (k : ℤ)
    (hd : d = (Complex.arg ⟨vx, vy⟩ - Complex.arg ⟨ux, uy⟩) + k * (2 * Real.pi))
    (hrange : |d| ≤ Real.pi) :
    Real.pi / 2 < |d| ↔ ux * vx + uy * vy < 0 := by
  have habs1 : 0 < Complex.abs (⟨ux, uy⟩ : ℂ) := Complex.abs.pos hu
  have habs2 : 0 < Complex.abs (⟨vx, vy⟩ : ℂ) := Complex.abs.pos hv
  have hcos : Real.cos d =
      (ux * vx + uy * vy) /
        (Complex.abs (⟨ux, uy⟩ : ℂ) * Complex.abs (⟨vx, vy⟩ : ℂ)) := by
    rw [hd, Real.cos_add_int_mul_two_pi, Real.cos_sub, Complex.cos_arg hv,
      Complex.cos_arg hu, Complex.sin_arg, Complex.sin_arg]
    show vx / _ * (ux / _) + vy / _ * (uy / _) = _
    field_simp
    ring
  have h1 : Real.cos d < 0 ↔ ux * vx + uy * vy < 0 := by
    rw [hcos]
    constructor
    · intro hneg
      by_contra hge
      push_neg at hge
      have : 0 ≤ (ux * vx + uy * vy) /
          (Complex.abs (⟨ux, uy⟩ : ℂ) * Complex.abs (⟨vx, vy⟩ : ℂ)) :=
        div_nonneg hge (le_of_lt (mul_pos habs1 habs2))
      linarith
    · intro hneg
      exact div_neg_of_neg_of_pos hneg (mul_pos habs1 habs2)
  have h2 : Real.pi / 2 < |d| ↔ Real.cos d < 0 := by
    constructor
    · intro h
      have hcosabs : Real.cos |d| < 0 :=
        Real.cos_neg_of_pi_div_two_lt_of_lt h
          (lt_of_le_of_lt hrange (by linarith [Real.pi_pos]))
      rwa [Real.cos_abs] at hcosabs
    · intro h
      by_contra hle
      push_neg at hle
      obtain ⟨hl, hr⟩ := abs_le.mp hle
      have : 0 ≤ Real.cos d := Real.cos_nonneg_of_mem_Icc ⟨hl, hr⟩
      linarith
  exact h2.trans h1

/-- Helper: the natural floor of a real square root is the natural square
root of the floor.  Justifies computing `Math.floor` of a square root with
`Nat.sqrt`. -/
theorem nat_floor_sqrt (x : ℝ) (hx : 0 ≤ x) :
    ⌊Real.sqrt x⌋₊ = Nat.sqrt ⌊x⌋₊ := by
  rw [Nat.floor_eq_iff (Real.sqrt_nonneg x)]
  constructor
  · calc ((Nat.sqrt ⌊x⌋₊ : ℕ) : ℝ) ≤ Real.sqrt (⌊x⌋₊ : ℝ) :=
        Real.nat_sqrt_le_real_sqrt
    _ ≤ Real.sqrt x := Real.sqrt_le_sqrt (Nat.floor_le hx)
  · rw [Real.sqrt_lt' (by positivity)]
    calc x < (⌊x⌋₊ : ℝ) + 1 := Nat.lt_floor_add_one x
    _ ≤ (((Nat.sqrt ⌊x⌋₊ + 1 : ℕ) ^ 2 : ℕ) : ℝ) := by
        exact_mod_cast Nat.succ_le_of_lt (Nat.lt_succ_sqrt' ⌊x⌋₊)
    _ = ((Nat.sqrt ⌊x⌋₊ : ℝ) + 1) ^ 2 := by push_cast; ring

/-- Faithfulness of `interpSteps`: for a nonnegative squared distance and a
positive threshold — the only case the source reaches, since the threshold
is `5 / min(width, height)` of a real canvas — it equals the source
expression `Math.min(10, Math.floor(Math.sqrt dist2 / (threshold / 2)))`
read over the reals. -/
theorem interpSteps_eq_floor (dist2 t : ℚ) (hd : 0 ≤ dist2) (ht : 0 < t) :
    interpSteps dist2 t =
      min 10 ⌊Real.sqrt ((dist2 : ℝ)) / ((t : ℝ) / 2)⌋₊ := by
  have ht2 : (0 : ℝ) < (t : ℝ) / 2 := by
    have : (0 : ℝ) < (t : ℝ) := by exact_mod_cast ht
    linarith
  have hd2 : (0 : ℝ) ≤ (dist2 : ℝ) := by exact_mod_cast hd
  have hq : Real.sqrt ((dist2 : ℝ)) / ((t : ℝ) / 2) =
      Real.sqrt ((dist2 : ℝ) / ((t : ℝ) / 2) ^ 2) := by
    rw [Real.sqrt_div hd2, Real.sqrt_sq (le_of_lt ht2)]
  have hcast : ((dist2 / (t / 2) ^ 2 : ℚ) : ℝ) = (dist2 : ℝ) / ((t : ℝ) / 2) ^ 2 := by
    push_cast
    ring
  have h1 : (⌊dist2 / (t / 2) ^ 2⌋).toNat = ⌊(dist2 : ℝ) / ((t : ℝ) / 2) ^ 2⌋₊ := by
    rw [← Int.floor_toNat, ← hcast, Rat.floor_cast]
  rw [interpSteps, h1, hq, nat_floor_sqrt _ (by positivity)]

end DrawingCommon

